import Mathlib

/-!
# Verification of the LSA kit-store booking backend (src/server.js)

Shallow embedding of the booking normalization/categorization pipeline of
`src/server.js` (the first, authoritative variant in that file).  JavaScript
strings are modelled as `List Char` (ASCII case mapping); JS objects used as
string→string maps are modelled as association lists; the JS runtime's
`Date` parsing and `Date.prototype.toISOString` are modelled after the
ECMA-262 Date Time String Format, with the server clock taken to be UTC.

Each function keeps the name it has in `server.js` where possible
(`norm`, `decideCategory`, `getTimeBucket`, `makeGroupKey`, ...).
-/

namespace KitStore

/-! ## JS string primitives (modelled over `List Char`) -/

/-- Coerce a Lean string literal to the `List Char` representation. -/
def str (s : String) : List Char := s.data

/-- ASCII lower-casing of one character, as JS `toLowerCase` acts on ASCII. -/
def lowerChar (c : Char) : Char :=
  if 65 ≤ c.toNat ∧ c.toNat ≤ 90 then Char.ofNat (c.toNat + 32) else c

/-- JS `String.prototype.toLowerCase` (ASCII model). -/
def jsToLower (l : List Char) : List Char := l.map lowerChar

/-- Whitespace recognized by JS `trim` (ASCII model). -/
def isWsChar (c : Char) : Bool :=
  c == ' ' || c == '\t' || c == '\n' || c == '\r'

/-- Drop whitespace from the right end of a list. -/
def dropTrail (p : Char → Bool) (l : List Char) : List Char :=
  (l.reverse.dropWhile p).reverse

/-- JS `String.prototype.trim`. -/
def jsTrim (l : List Char) : List Char :=
  dropTrail isWsChar (l.dropWhile isWsChar)

/-- Does `l` start with `pre`? -/
def startsWithL : List Char → List Char → Bool
  | _, [] => true
  | [], _ :: _ => false
  | c :: cs, d :: ds => c == d && startsWithL cs ds

/-- JS `String.prototype.includes` (substring containment). -/
def listContains : List Char → List Char → Bool
  | [], needle => needle.isEmpty
  | c :: rest, needle => startsWithL (c :: rest) needle || listContains rest needle

/-- JS `String.prototype.split` on a single separator character
(keeps empty fields, result is always non-empty). -/
def splitChar : List Char → Char → List (List Char)
  | [], _ => [[]]
  | c :: rest, sep =>
    let r := splitChar rest sep
    if c == sep then [] :: r else (c :: r.headD []) :: r.tail

/-- JS `String.prototype.replace` with a single-character pattern:
replaces only the first occurrence. -/
def jsReplaceFirst : List Char → Char → Char → List Char
  | [], _, _ => []
  | c :: rest, a, b => if c == a then b :: rest else c :: jsReplaceFirst rest a b

/-- Decimal digit character. -/
def digitChar (n : Nat) : Char := Char.ofNat (48 + n)

/-- Value of a decimal digit character. -/
def digitVal (c : Char) : Nat := c.toNat - 48

/-- Is `c` an ASCII decimal digit? -/
def isDigitChar (c : Char) : Bool := 48 ≤ c.toNat && c.toNat ≤ 57

/-- Decimal rendering of a natural number (fuelled helper). -/
def natDigitsAux : Nat → Nat → List Char
  | 0, _ => []
  | fuel+1, n => if n < 10 then [digitChar n] else natDigitsAux fuel (n / 10) ++ [digitChar (n % 10)]

/-- JS `String(n)` for a natural number. -/
def numToStr (n : Nat) : List Char := natDigitsAux (n + 1) n

/-- JS `String.prototype.padStart(2, '0')`. -/
def jsPadStart2 (l : List Char) : List Char :=
  if l.length < 2 then List.replicate (2 - l.length) '0' ++ l else l

/-- JS `Array.prototype.join(' ')`. -/
def joinSpace (ls : List (List Char)) : List Char := List.intercalate [' '] ls

/-! ## Normalizer and category resolution (`server.js` lines 113–126) -/

/-- `norm` of `server.js:113`: `(s||'').toString().toLowerCase().trim()`. -/
def norm (s : List Char) : List Char := jsTrim (jsToLower s)

/-- The upstream category-hint fields of a raw booking row
(`server.js:117-120`); absent fields are the empty string. -/
structure RawRow where
  assetcategoryname : List Char := []
  categoryname : List Char := []
  assetcategory : List Char := []
  category : List Char := []
  assettypecategory : List Char := []
  groupname : List Char := []
  department : List Char := []
  parentcategory : List Char := []
  subcategory : List Char := []

/-- Association-list model of a JS object used as a string→string map. -/
def OMap : Type := List (List Char × List Char)

/-- JS property lookup `m[k]` (`undefined` ↦ `none`). -/
def jsLookup : OMap → List Char → Option (List Char)
  | [], _ => none
  | (k', v) :: rest, k => if k' = k then some v else jsLookup rest k

/-- Remove the binding of `k` (JS `delete m[k]`). -/
def eraseKey : OMap → List Char → OMap
  | [], _ => []
  | (k', v) :: rest, k => if k' = k then eraseKey rest k else (k', v) :: eraseKey rest k

/-- JS property assignment `m[k] = v`. -/
def setKey (m : OMap) (k v : List Char) : OMap := (k, v) :: eraseKey m k

/-- The concatenated, normalized upstream hint text of `server.js:117-120`:
`[...fields].map(v=>norm(v)).filter(Boolean).join(' ')`. -/
def hintText (row : RawRow) : List Char :=
  joinSpace (([row.assetcategoryname, row.categoryname, row.assetcategory, row.category,
      row.assettypecategory, row.groupname, row.department, row.parentcategory,
      row.subcategory].map norm).filter (fun v => !v.isEmpty))

/-- The keyword cascade of `server.js:121-125` over the hint text. -/
def hintCategory (row : RawRow) : List Char :=
  let raw := hintText row
  if listContains raw (str "lighting") then str "lighting"
  else if listContains raw (str "video") || listContains raw (str "camera")
      || listContains raw (str "lens") then str "video"
  else if listContains raw (str "sound") || listContains raw (str "audio")
      || listContains raw (str "mic") then str "sound"
  else if listContains raw (str "grip") || listContains raw (str "tripod")
      || listContains raw (str "stand") then str "grip"
  else str "uncategorised"

/-- `decideCategory` of `server.js:114-126`: manual override (if truthy),
otherwise the upstream-hint keyword cascade. -/
def decideCategory (row : RawRow) (assetName : List Char) (overrides : OMap) : List Char :=
  match jsLookup overrides (norm assetName) with
  | some v => if v = [] then hintCategory row else v
  | none => hintCategory row

/-- The four curated lists persisted in `lists.json` (`server.js:50`). -/
structure CuratedLists where
  grip : List (List Char) := []
  video : List (List Char) := []
  lighting : List (List Char) := []
  sound : List (List Char) := []

/-- Modelled from the spec: bidirectional case-insensitive substring match of a
normalized asset name against one curated list's entries (`resolveCategory`
step 3 of spec §4.2); no such matching exists anywhere in `src/server.js`. -/
def curatedEntryMatch (entries : List (List Char)) (n : List Char) : Bool :=
  entries.any (fun e => listContains n (norm e) || listContains (norm e) n)

/-- Modelled from the spec: the categories whose curated list fuzzily matches
the normalized name `n`, in the spec's priority order video, sound, lighting,
grip. -/
def curatedCats (L : CuratedLists) (n : List Char) : List (List Char) :=
  (if curatedEntryMatch L.video n then [str "video"] else []) ++
  (if curatedEntryMatch L.sound n then [str "sound"] else []) ++
  (if curatedEntryMatch L.lighting n then [str "lighting"] else []) ++
  (if curatedEntryMatch L.grip n then [str "grip"] else [])

/-! ## Status derivation (`server.js` lines 228–243) -/

/-- The fulfilled-keyword list of `server.js:229`. -/
def pickedKeywords : List (List Char) :=
  [str "picked", str "ready", str "collected", str "complete",
   str "completed", str "returned", str "issued"]

/-- Number of (already lower-cased) sub-statuses containing a fulfilled
keyword (`server.js:230`). -/
def countFulfilled (statuses : List (List Char)) : Nat :=
  (statuses.filter (fun s => pickedKeywords.any (fun k => listContains s k))).length

/-- The three-way automatic rule of `server.js:232-235`, abstracted over the
two counts it compares. -/
def autoFromCounts (fulfilled total : Nat) : List Char :=
  if fulfilled = 0 then str "Not Picked"
  else if fulfilled < total then str "Preparing"
  else str "Ready for Collection"

/-- Automatic status of a group from its (lower-cased) sub-status list. -/
def autoStatus (statuses : List (List Char)) : List Char :=
  autoFromCounts (countFulfilled statuses) statuses.length

/-- The manual-override layering of `server.js:237-243`. -/
def applyStatusOverride (overrides : OMap) (key auto : List Char) : List Char :=
  match jsLookup overrides key with
  | none => auto
  | some v =>
    if v = [] then auto
    else
      let o := jsToLower v
      if o = str "preparing" then str "Preparing"
      else if o = str "ready" then str "Ready for Collection"
      else if o = str "notpicked" ∨ o = str "not picked" then str "Not Picked"
      else auto

/-- Rank order used to compare derived statuses (C9). -/
def statusRank (s : List Char) : Nat :=
  if s = str "Not Picked" then 0 else if s = str "Preparing" then 1 else 2

/-! ## Override-store operations (`server.js` lines 181–190 and 256–272) -/

/-- The five category labels accepted by `POST /api/category-override`. -/
def allowedCats : List (List Char) :=
  [str "video", str "sound", str "lighting", str "grip", str "uncategorised"]

/-- The status values accepted by `POST /api/update-status`. -/
def allowedStatusVals : List (List Char) :=
  [str "preparing", str "ready", str "notpicked", str "not picked", str "clear"]

/-- The status values that can actually be stored (no `clear`). -/
def storableStatusVals : List (List Char) :=
  [str "preparing", str "ready", str "notpicked", str "not picked"]

/-- `POST /api/category-override` (`server.js:181-190`): returns the HTTP
status code and the resulting persisted category-override map. -/
def categoryOverrideOp (m : OMap) (assetName category : List Char) : Nat × OMap :=
  if assetName = [] ∨ jsToLower category ∉ allowedCats then (400, m)
  else (200, setKey m (norm assetName) (jsToLower category))

/-- `POST /api/update-status` (`server.js:256-272`): returns the HTTP status
code and the resulting persisted status-override map. -/
def updateStatusOp (m : OMap) (key status : List Char) : Nat × OMap :=
  if key = [] ∨ jsToLower status ∉ allowedStatusVals then (400, m)
  else if jsToLower status = str "clear" then (200, eraseKey m key)
  else (200, setKey m key (jsToLower status))

/-- Modelled from the spec: the character class spec §4.1 says `normalize`
keeps (letters/digits/space/apostrophe/hyphen/quote). -/
def isSpecANChar (c : Char) : Bool :=
  c.isAlpha || isDigitChar c || c == ' ' || c == '\'' || c == '-' || c == '"'

/-- One authenticated mutating request against the override stores (C10). -/
inductive TechOp where
  | catOv (assetName category : List Char)
  | statusUpd (key status : List Char)

/-- Apply one request to the pair (category map, status map). -/
def applyOp (s : OMap × OMap) : TechOp → OMap × OMap
  | .catOv a c => ((categoryOverrideOp s.1 a c).2, s.2)
  | .statusUpd k v => (s.1, (updateStatusOp s.2 k v).2)

/-- Apply a sequence of requests, oldest first. -/
def applyOps (s : OMap × OMap) : List TechOp → OMap × OMap
  | [] => s
  | op :: rest => applyOps (applyOp s op) rest

/-! ## Date/time model (`server.js` lines 74–110)

`Date` parsing and `toISOString` are platform behavior.  They are modelled
after ECMA-262: the strict Date Time String Format `YYYY-MM-DD[THH:MM[:SS]]`
(no fractional seconds or offsets), interpreted in UTC (the server clock is
taken to be UTC), over a proleptic-Gregorian calendar for years 0–9999. -/

/-- Proleptic-Gregorian leap year. -/
def isLeapYear (y : Nat) : Bool := (y % 4 == 0 && y % 100 != 0) || y % 400 == 0

/-- Days in month `m` (1–12) of year `y`. -/
def daysInMonthJS (y m : Nat) : Nat :=
  if m = 2 then (if isLeapYear y then 29 else 28)
  else if m = 4 ∨ m = 6 ∨ m = 9 ∨ m = 11 then 30 else 31

/-- Days from the start of a 400-year era to the start of March-based
year-of-era `y`. -/
def dstart (y : Nat) : Nat := 365 * y + y / 4 - y / 100

/-- Signed day count from the epoch 1970-01-01 to year-month-day
(ECMA-262 `MakeDay`), for years 0–9999; computed March-based, shifted four
centuries so all intermediates stay in `Nat`. -/
def daysFromCivil (y m d : Nat) : Int :=
  let yAdj := y + 400 - (if m ≤ 2 then 1 else 0)
  let era := yAdj / 400
  let yoe := yAdj % 400
  let doy := (153 * (if 2 < m then m - 3 else m + 9) + 2) / 5 + d - 1
  (era : Int) * 146097 + ((dstart yoe + doy : Nat) : Int) - 865565

/-- Largest `yoe ≤ n` with `dstart yoe ≤ doe`
(ECMA-262 `YearFromTime`, era-relative: largest year starting at or
before the given day). -/
def findYoeAux (doe : Nat) : Nat → Nat
  | 0 => 0
  | y + 1 => if dstart (y + 1) ≤ doe then y + 1 else findYoeAux doe y

/-- Year-of-era of day-of-era `doe < 146097`. -/
def findYoe (doe : Nat) : Nat := findYoeAux doe 399

/-- Month (1–12) of a March-based day-of-year `doy ≤ 365`. -/
def monthFromDoy (doy : Nat) : Nat :=
  let mp := (5 * doy + 2) / 153
  if mp < 10 then mp + 3 else mp - 9

/-- Day-of-month (1–31) of a March-based day-of-year `doy ≤ 365`. -/
def dayFromDoy (doy : Nat) : Nat :=
  doy - (153 * ((5 * doy + 2) / 153) + 2) / 5 + 1

/-- Inverse of `daysFromCivil` (ECMA-262 `YearFromTime`/`MonthFromTime`/
`DateFromTime`), valid from day −719528 (0000-01-01) on. -/
def civilFromDays (z : Int) : Nat × Nat × Nat :=
  let z' := (z + 865565).toNat        -- days since -0400-03-01
  let era := z' / 146097
  let doe := z' % 146097
  let doy := doe - dstart (findYoe doe)
  (findYoe doe + (if monthFromDoy doy ≤ 2 then 1 else 0) + era * 400 - 400,
   monthFromDoy doy, dayFromDoy doy)

/-- `Date.prototype.toISOString` for years 0–9999:
`YYYY-MM-DDTHH:MM:SS.mmmZ`. -/
def isoOfMs (t : Int) : List Char :=
  let days := t / 86400000
  let tod := (t % 86400000).toNat
  let c := civilFromDays days
  let y := c.1
  let mo := c.2.1
  let d := c.2.2
  let h := tod / 3600000
  let mi := tod / 60000 % 60
  let s := tod / 1000 % 60
  let f := tod % 1000
  [digitChar (y / 1000 % 10), digitChar (y / 100 % 10), digitChar (y / 10 % 10),
   digitChar (y % 10), '-', digitChar (mo / 10 % 10), digitChar (mo % 10), '-',
   digitChar (d / 10 % 10), digitChar (d % 10), 'T', digitChar (h / 10 % 10),
   digitChar (h % 10), ':', digitChar (mi / 10 % 10), digitChar (mi % 10), ':',
   digitChar (s / 10 % 10), digitChar (s % 10), '.', digitChar (f / 100 % 10),
   digitChar (f / 10 % 10), digitChar (f % 10), 'Z']

/-- Parse exactly two digits. -/
def parse2 : List Char → Option (Nat × List Char)
  | a :: b :: rest =>
    if isDigitChar a && isDigitChar b then some (digitVal a * 10 + digitVal b, rest)
    else none
  | _ => none

/-- Parse exactly four digits. -/
def parse4 : List Char → Option (Nat × List Char)
  | a :: b :: c :: d :: rest =>
    if isDigitChar a && isDigitChar b && isDigitChar c && isDigitChar d then
      some (((digitVal a * 10 + digitVal b) * 10 + digitVal c) * 10 + digitVal d, rest)
    else none
  | _ => none

/-- Expect one specific character. -/
def expectChar (c : Char) : List Char → Option (List Char)
  | d :: rest => if c == d then some rest else none
  | [] => none

/-- Parse the optional time part (`""`, `"THH:MM"` or `"THH:MM:SS"`) into
milliseconds of day. -/
def parseHMS : List Char → Option Nat
  | [] => some 0
  | 'T' :: r =>
    match parse2 r with
    | none => none
    | some (h, r1) =>
      match expectChar ':' r1 with
      | none => none
      | some r2 =>
        match parse2 r2 with
        | none => none
        | some (mi, r3) =>
          match r3 with
          | [] => if h ≤ 23 ∧ mi ≤ 59 then some ((h * 60 + mi) * 60000) else none
          | ':' :: r4 =>
            match parse2 r4 with
            | none => none
            | some (ss, r5) =>
              if r5 = [] ∧ h ≤ 23 ∧ mi ≤ 59 ∧ ss ≤ 59 then
                some (((h * 60 + mi) * 60 + ss) * 1000)
              else none
          | _ => none
  | _ => none

/-- ECMA-262 Date Time String Format parsing (`new Date(string)`, UTC model):
`YYYY-MM-DD[THH:MM[:SS]]` with calendar-valid components; anything else is an
invalid date (`none`). -/
def jsParseDate (s : List Char) : Option Int :=
  match parse4 s with
  | none => none
  | some (y, r1) =>
    match expectChar '-' r1 with
    | none => none
    | some r2 =>
      match parse2 r2 with
      | none => none
      | some (mo, r3) =>
        match expectChar '-' r3 with
        | none => none
        | some r4 =>
          match parse2 r4 with
          | none => none
          | some (d, r5) =>
            match parseHMS r5 with
            | none => none
            | some tod =>
              if 1 ≤ mo ∧ mo ≤ 12 ∧ 1 ≤ d ∧ d ≤ daysInMonthJS y mo then
                some (daysFromCivil y mo d * 86400000 + (tod : Int))
              else none

/-- JS unary `+` on a string field (digits-only model: `undefined` and
non-numeric text give NaN = `none`; empty or all-whitespace gives 0). -/
def jsPlus : Option (List Char) → Option Nat
  | none => none
  | some l =>
    let t := jsTrim l
    if t = [] then some 0
    else if t.all isDigitChar then some (t.foldl (fun a c => a * 10 + digitVal c) 0)
    else none

/-- JS `String(x)` of a possibly-NaN number. -/
def numOrNaN : Option Nat → List Char
  | some n => numToStr n
  | none => str "NaN"

/-- `parseStartDateParts` of `server.js:74-88`, as (day, month, year);
components are `none` where the JS value would be NaN. -/
def parseStartDateParts (s : List Char) : Option (Option Nat × Option Nat × Option Nat) :=
  if s = [] then none
  else
    let datePart := (splitChar s ' ').headD []
    if datePart.contains '/' then
      let ps := splitChar datePart '/'
      some (jsPlus (ps.get? 0), jsPlus (ps.get? 1), jsPlus (ps.get? 2))
    else if datePart.contains '-' then
      let ps := splitChar datePart '-'
      some (jsPlus (ps.get? 2), jsPlus (ps.get? 1), jsPlus (ps.get? 0))
    else
      match jsParseDate (jsReplaceFirst s ' ' 'T') with
      | some t =>
        let c := civilFromDays (t / 86400000)
        some (some c.2.2, some c.2.1, some c.1)
      | none => none

/-- The direct parse of `server.js:96`: `new Date(raw.replace(' ', 'T'))`. -/
def directInstant (s : List Char) : Option Int :=
  jsParseDate (jsReplaceFirst s ' ' 'T')

/-- The rebuilt-template fallback parse of `server.js:98-102`. -/
def fallbackInstant (s : List Char) : Option Int :=
  match parseStartDateParts s with
  | none => none
  | some (pd, pm, py) =>
    let time := match (splitChar s ' ').get? 1 with
      | some t => if t = [] then str "00:00:00" else t
      | none => str "00:00:00"
    jsParseDate (numOrNaN py ++ ['-'] ++ jsPadStart2 (numOrNaN pm) ++ ['-'] ++
      jsPadStart2 (numOrNaN pd) ++ ['T'] ++ time)

/-- The instant `getTimeBucket` buckets, when either parse succeeds. -/
def bucketInstant (s : List Char) : Option Int :=
  match directInstant s with
  | some t => some t
  | none => fallbackInstant s

/-- `getTimeBucket` of `server.js:93-107`. -/
def getTimeBucket (s : List Char) (minutes : Nat) : List Char :=
  if s = [] then str "Unknown"
  else
    match bucketInstant s with
    | none => s
    | some t =>
      let ms : Int := (minutes : Int) * 60 * 1000
      isoOfMs (t / ms * ms)

/-- `makeGroupKey` of `server.js:108-110`. -/
def makeGroupKey (username startdatetime : List Char) : List Char :=
  jsTrim (if username = [] then str "Unknown" else username) ++ ['_'] ++
  jsTrim (if startdatetime = [] then str "Unknown" else startdatetime)

/-! ## Association-map lemmas -/

theorem jsLookup_eraseKey (m : OMap) (k k' : List Char) :
    jsLookup (eraseKey m k) k' = if k = k' then none else jsLookup m k' := by
  induction m with
  | nil => simp [eraseKey, jsLookup]
  | cons p rest ih =>
    obtain ⟨pk, pv⟩ := p
    by_cases h1 : pk = k <;> by_cases h2 : k = k' <;>
      simp_all [eraseKey, jsLookup]

theorem jsLookup_setKey (m : OMap) (k v k' : List Char) :
    jsLookup (setKey m k v) k' = if k = k' then some v else jsLookup m k' := by
  by_cases h : k = k' <;> simp [setKey, jsLookup, jsLookup_eraseKey, h]

/-! ## Character-level lemmas for the normalizer -/

theorem charOfNat_toNat {n : Nat} (h : n < 55296) : (Char.ofNat n).toNat = n := by
  unfold Char.ofNat
  rw [dif_pos (Or.inl h)]
  rfl

theorem lowerChar_not_upper (c : Char) :
    ¬ (65 ≤ (lowerChar c).toNat ∧ (lowerChar c).toNat ≤ 90) := by
  unfold lowerChar
  split
  · next h =>
    have hval : (Char.ofNat (c.toNat + 32)).toNat = c.toNat + 32 :=
      charOfNat_toNat (by omega)
    rw [hval]; omega
  · next h => exact h

theorem mem_of_mem_jsTrim {c : Char} {l : List Char} (h : c ∈ jsTrim l) : c ∈ l := by
  unfold jsTrim dropTrail at h
  rw [List.mem_reverse] at h
  have h2 : c ∈ (l.dropWhile isWsChar).reverse := (List.dropWhile_sublist _).subset h
  rw [List.mem_reverse] at h2
  exact (List.dropWhile_sublist _).subset h2

theorem head?_dropWhile_ws {p : Char → Bool} {l : List Char} {c : Char}
    (h : (l.dropWhile p).head? = some c) : p c = false := by
  induction l with
  | nil => simp [List.dropWhile] at h
  | cons a t ih =>
    rw [List.dropWhile_cons] at h
    by_cases hpa : p a
    · rw [if_pos hpa] at h; exact ih h
    · rw [if_neg hpa] at h
      simp only [List.head?_cons, Option.some.injEq] at h
      rw [← h]
      exact Bool.eq_false_iff.mpr hpa

theorem jsTrim_getLast_not_ws {l : List Char} {c : Char}
    (h : (jsTrim l).getLast? = some c) : isWsChar c = false := by
  unfold jsTrim dropTrail at h
  rw [List.getLast?_reverse] at h
  exact head?_dropWhile_ws h

theorem jsTrim_head_not_ws {l : List Char} {c : Char}
    (h : (jsTrim l).head? = some c) : isWsChar c = false := by
  unfold jsTrim dropTrail at h
  have hx : (l.dropWhile isWsChar) =
      ((l.dropWhile isWsChar).reverse.dropWhile isWsChar).reverse ++
      ((l.dropWhile isWsChar).reverse.takeWhile isWsChar).reverse := by
    conv_lhs =>
      rw [← List.reverse_reverse (l.dropWhile isWsChar),
        ← List.takeWhile_append_dropWhile (p := isWsChar)
          (l := (l.dropWhile isWsChar).reverse)]
    rw [List.reverse_append]
  have hh : (l.dropWhile isWsChar).head? = some c := by
    rw [hx, List.head?_append, h]
    rfl
  exact head?_dropWhile_ws hh

/-! ## Claim C1 (corrected) -/

/-- C1 counterexample: "Sony A7IV" fuzzily matches exactly one curated list
(video), there is no category override for it, yet `decideCategory` follows
the upstream hint field `department = "sound"` and returns `sound`, not the
curated list's category.  `decideCategory` never consults curated lists. -/
theorem C1_counterexample :
    curatedCats { video := [str "Sony A7IV"] } (norm (str "Sony A7IV")) = [str "video"] ∧
    jsLookup [] (norm (str "Sony A7IV")) = none ∧
    decideCategory { department := str "sound" } (str "Sony A7IV") [] = str "sound" ∧
    str "sound" ≠ str "video" := by
  refine ⟨by decide, by decide, by decide, by decide⟩

/-- C1 (amended): `decideCategory` ignores curated lists entirely.  For a row
with no category-override entry, the resolved category is the upstream-hint
cascade's result, even when the normalized asset name fuzzily matches exactly
one curated list of a different category. -/
theorem C1_hint_cascade_ignores_curated (row : RawRow) (assetName : List Char)
    (overrides : OMap) (L : CuratedLists) (cl : List Char)
    (hov : jsLookup overrides (norm assetName) = none)
    (hcur : curatedCats L (norm assetName) = [cl])
    (hne : hintCategory row ≠ cl) :
    decideCategory row assetName overrides = hintCategory row ∧
    decideCategory row assetName overrides ≠ cl := by
  have h : decideCategory row assetName overrides = hintCategory row := by
    unfold decideCategory
    rw [hov]
  exact ⟨h, h ▸ hne⟩

/-- Witness for `C1_hint_cascade_ignores_curated` at the counterexample's
concrete input. -/
theorem C1_hint_cascade_ignores_curated_witness :
    decideCategory { department := str "sound" } (str "Sony A7IV") [] =
      hintCategory { department := str "sound" } ∧
    decideCategory { department := str "sound" } (str "Sony A7IV") [] ≠ str "video" :=
  C1_hint_cascade_ignores_curated { department := str "sound" } (str "Sony A7IV") []
    { video := [str "Sony A7IV"] } (str "video") (by decide) (by decide) (by decide)

/-! ## Claim C2 (confirmed) -/

/-- C2: if the category-override map binds the row's normalized asset name to
a category `c`, `decideCategory` returns `c`, whatever the row's upstream
category-hint fields say. -/
theorem C2_manual_override_wins (row : RawRow) (assetName c : List Char)
    (overrides : OMap)
    (hbind : jsLookup overrides (norm assetName) = some c)
    (hcat : c ∈ allowedCats) :
    decideCategory row assetName overrides = c := by
  have hne : c ≠ [] := by
    simp only [allowedCats, List.mem_cons, List.not_mem_nil, or_false] at hcat
    rcases hcat with rfl | rfl | rfl | rfl | rfl <;> decide
  unfold decideCategory
  rw [hbind]
  simp [hne]

/-- Witness for `C2_manual_override_wins`: override to video beats the
upstream hint pointing at sound. -/
theorem C2_manual_override_wins_witness :
    decideCategory { department := str "sound" } (str "Sony A7IV")
      [(str "sony a7iv", str "video")] = str "video" :=
  C2_manual_override_wins { department := str "sound" } (str "Sony A7IV")
    (str "video") [(str "sony a7iv", str "video")] (by decide) (by decide)

/-! ## Claim C4 (corrected) -/

/-- C4 counterexample: `norm` only lower-cases and trims.  On `"A“  b!"` the
output keeps `!` (outside the spec's allowed character class), keeps the curly
quote unmapped, and keeps the internal double space uncollapsed. -/
theorem C4_counterexample :
    norm (str "A“  b!") = str "a“  b!" ∧
    ('!' ∈ norm (str "A“  b!") ∧ isSpecANChar '!' = false) ∧
    '“' ∈ norm (str "A“  b!") ∧
    listContains (norm (str "A“  b!")) (str "  ") = true := by
  refine ⟨by decide, ⟨by decide, by decide⟩, by decide, by decide⟩

/-- C4 (amended): `norm` maps empty input to empty output and, for every
input, produces a string with no ASCII upper-case letter and no leading or
trailing whitespace (it lower-cases and trims, and is total); it does not
strip punctuation, map curly quotes, or collapse internal whitespace. -/
theorem C4_norm_lowercases_and_trims :
    norm [] = [] ∧
    ∀ s : List Char,
      (∀ c ∈ norm s, ¬ (65 ≤ c.toNat ∧ c.toNat ≤ 90)) ∧
      (∀ c, (norm s).head? = some c → isWsChar c = false) ∧
      (∀ c, (norm s).getLast? = some c → isWsChar c = false) := by
  refine ⟨by decide, fun s => ⟨?_, ?_, ?_⟩⟩
  · intro c hc
    have hm : c ∈ jsToLower s := mem_of_mem_jsTrim hc
    obtain ⟨c0, _, rfl⟩ := List.mem_map.mp hm
    exact lowerChar_not_upper c0
  · intro c hc
    exact jsTrim_head_not_ws hc
  · intro c hc
    exact jsTrim_getLast_not_ws hc

/-- Witness for `C4_norm_lowercases_and_trims` at `" Ab "`
(`norm " Ab " = "ab"`). -/
theorem C4_norm_lowercases_and_trims_witness :
    ¬ (65 ≤ Char.toNat 'a' ∧ Char.toNat 'a' ≤ 90) ∧ isWsChar 'a' = false ∧
    isWsChar 'b' = false :=
  ⟨(C4_norm_lowercases_and_trims.2 (str " Ab ")).1 'a' (by decide),
   (C4_norm_lowercases_and_trims.2 (str " Ab ")).2.1 'a' (by decide),
   (C4_norm_lowercases_and_trims.2 (str " Ab ")).2.2 'b' (by decide)⟩

/-! ## Claim C6 (confirmed) -/

/-- C6: updating a group's status override and then posting the special value
`clear` removes the key from the status-override map, so status derivation
for that group returns exactly the automatically computed status again. -/
theorem C6_clear_restores_auto (m : OMap) (k v a : List Char) (hk : k ≠ []) :
    jsLookup (updateStatusOp (updateStatusOp m k v).2 k (str "clear")).2 k = none ∧
    applyStatusOverride (updateStatusOp (updateStatusOp m k v).2 k (str "clear")).2 k a = a := by
  have hclear : updateStatusOp (updateStatusOp m k v).2 k (str "clear") =
      (200, eraseKey (updateStatusOp m k v).2 k) := by
    unfold updateStatusOp
    rw [if_neg (by push_neg; exact ⟨hk, by decide⟩), if_pos (by decide)]
  rw [hclear]
  have hnone : jsLookup (eraseKey (updateStatusOp m k v).2 k) k = none := by
    rw [jsLookup_eraseKey]
    simp
  refine ⟨hnone, ?_⟩
  unfold applyStatusOverride
  rw [hnone]

/-- Witness for `C6_clear_restores_auto`: set `ready`, then `clear`; the
override layer then passes the automatic status through unchanged. -/
theorem C6_clear_restores_auto_witness :
    jsLookup (updateStatusOp (updateStatusOp [] (str "Alice_x") (str "Ready")).2
      (str "Alice_x") (str "clear")).2 (str "Alice_x") = none ∧
    applyStatusOverride (updateStatusOp (updateStatusOp [] (str "Alice_x") (str "Ready")).2
      (str "Alice_x") (str "clear")).2 (str "Alice_x") (str "Preparing") = str "Preparing" :=
  C6_clear_restores_auto [] (str "Alice_x") (str "Ready") (str "Preparing") (by decide)

/-! ## Claim C8 (confirmed) -/

/-- C8: a category-override request with a missing asset name or a category
outside the five allowed labels, and a status-update request with a missing
key or a status outside the allowed vocabulary, are rejected with HTTP 400
and leave the persisted override maps unchanged. -/
theorem C8_validation_rejects (m1 m2 : OMap) (a c k s : List Char) :
    ((a = [] ∨ jsToLower c ∉ allowedCats) → categoryOverrideOp m1 a c = (400, m1)) ∧
    ((k = [] ∨ jsToLower s ∉ allowedStatusVals) → updateStatusOp m2 k s = (400, m2)) := by
  constructor <;> intro h
  · unfold categoryOverrideOp
    rw [if_pos h]
  · unfold updateStatusOp
    rw [if_pos h]

/-- Witness for `C8_validation_rejects`: the unknown category `camera` and the
unknown status `done` are both rejected without touching the maps. -/
theorem C8_validation_rejects_witness :
    categoryOverrideOp [] (str "Sony A7IV") (str "camera") = (400, []) ∧
    updateStatusOp [] (str "Alice_x") (str "done") = (400, []) :=
  ⟨(C8_validation_rejects [] [] (str "Sony A7IV") (str "camera") (str "Alice_x")
      (str "done")).1 (Or.inr (by decide)),
   (C8_validation_rejects [] [] (str "Sony A7IV") (str "camera") (str "Alice_x")
      (str "done")).2 (Or.inr (by decide))⟩

/-! ## Claim C9 (confirmed) -/

/-- C9: for a fixed total, the automatic status rule is monotone in the
fulfilled count under the rank order
Not Picked < Preparing < Ready for Collection. -/
theorem C9_auto_status_monotone (total f1 f2 : Nat) (h : f1 ≤ f2) :
    statusRank (autoFromCounts f1 total) ≤ statusRank (autoFromCounts f2 total) := by
  unfold autoFromCounts
  split_ifs <;> first | decide | omega

/-- Witness for `C9_auto_status_monotone` at fulfilled counts 1 ≤ 2 of 2. -/
theorem C9_auto_status_monotone_witness :
    statusRank (autoFromCounts 1 2) ≤ statusRank (autoFromCounts 2 2) :=
  C9_auto_status_monotone 2 1 2 (by decide)

/-! ## Claim C3 (confirmed) -/

/-- C3: for a non-empty group with no status override, with `fulfilled` the
number of raw sub-statuses that case-insensitively contain a fulfilled
keyword, the derived status is Not Picked iff `fulfilled = 0`, Preparing iff
`0 < fulfilled < total`, and Ready for Collection iff `fulfilled = total`. -/
theorem C3_status_thresholds (raws : List (List Char)) (m : OMap) (key : List Char)
    (hne : raws ≠ []) (hov : jsLookup m key = none) :
    (applyStatusOverride m key (autoStatus (raws.map jsToLower)) = str "Not Picked" ↔
      (raws.filter (fun s => pickedKeywords.any
        (fun k => listContains (jsToLower s) k))).length = 0) ∧
    (applyStatusOverride m key (autoStatus (raws.map jsToLower)) = str "Preparing" ↔
      0 < (raws.filter (fun s => pickedKeywords.any
        (fun k => listContains (jsToLower s) k))).length ∧
      (raws.filter (fun s => pickedKeywords.any
        (fun k => listContains (jsToLower s) k))).length < raws.length) ∧
    (applyStatusOverride m key (autoStatus (raws.map jsToLower)) = str "Ready for Collection" ↔
      (raws.filter (fun s => pickedKeywords.any
        (fun k => listContains (jsToLower s) k))).length = raws.length) := by
  have happ : applyStatusOverride m key (autoStatus (raws.map jsToLower)) =
      autoStatus (raws.map jsToLower) := by
    unfold applyStatusOverride
    rw [hov]
  have hcount : countFulfilled (raws.map jsToLower) =
      (raws.filter (fun s => pickedKeywords.any
        (fun k => listContains (jsToLower s) k))).length := by
    unfold countFulfilled jsToLower
    rw [List.filter_map, List.length_map]
    rfl
  set F := (raws.filter (fun s => pickedKeywords.any
    (fun k => listContains (jsToLower s) k))).length with hF
  have hFle : F ≤ raws.length := by
    rw [hF]
    exact List.length_filter_le _ _
  have htot : 0 < raws.length := List.length_pos.mpr hne
  rw [happ]
  unfold autoStatus
  rw [hcount, List.length_map]
  unfold autoFromCounts
  refine ⟨?_, ?_, ?_⟩ <;> split_ifs with h1 h2
  · simp [h1]
  · exact iff_of_false (by decide) h1
  · exact iff_of_false (by decide) h1
  · exact iff_of_false (by decide) (by omega)
  · exact iff_of_true rfl ⟨by omega, h2⟩
  · exact iff_of_false (by decide) (by omega)
  · exact iff_of_false (by decide) (by omega)
  · exact iff_of_false (by decide) (by omega)
  · exact iff_of_true rfl (by omega)

/-- Witness for `C3_status_thresholds`: the spec's scenario — statuses
`Issued` and `Awaiting Collection` derive Preparing (one of two fulfilled). -/
theorem C3_status_thresholds_witness :
    applyStatusOverride [] (str "k")
      (autoStatus ([str "Issued", str "Awaiting Collection"].map jsToLower)) =
      str "Preparing" :=
  (C3_status_thresholds [str "Issued", str "Awaiting Collection"] [] (str "k")
    (by decide) (by decide)).2.1.mpr ⟨by decide, by decide⟩

/-! ## Claim C10 (confirmed) -/

/-- Generalized store invariant used to prove C10: any entry of the category
map after a request sequence is an allowed label keyed by a normalized
submitted name (or was there initially), and any status-map entry is a
storable status value (or was there initially). -/
theorem applyOps_lookup (ops : List TechOp) (s : OMap × OMap) (k v : List Char) :
    (jsLookup (applyOps s ops).1 k = some v →
      (v ∈ allowedCats ∧ ∃ a c, TechOp.catOv a c ∈ ops ∧ k = norm a) ∨
        jsLookup s.1 k = some v) ∧
    (jsLookup (applyOps s ops).2 k = some v →
      v ∈ storableStatusVals ∨ jsLookup s.2 k = some v) := by
  induction ops generalizing s with
  | nil => exact ⟨fun h => Or.inr h, fun h => Or.inr h⟩
  | cons op rest ih =>
    obtain ⟨ihc, ihs⟩ := ih (applyOp s op)
    constructor
    · intro h
      rcases ihc h with ⟨hv, a, c, hmem, hk⟩ | hlook
      · exact Or.inl ⟨hv, a, c, List.mem_cons_of_mem _ hmem, hk⟩
      · cases op with
        | statusUpd k' v' => exact Or.inr hlook
        | catOv a c =>
          show (v ∈ allowedCats ∧ ∃ a' c', TechOp.catOv a' c' ∈ TechOp.catOv a c :: rest ∧
            k = norm a') ∨ jsLookup s.1 k = some v
          replace hlook : jsLookup (categoryOverrideOp s.1 a c).2 k = some v := hlook
          unfold categoryOverrideOp at hlook
          by_cases hcond : a = [] ∨ jsToLower c ∉ allowedCats
          · rw [if_pos hcond] at hlook
            exact Or.inr hlook
          · rw [if_neg hcond] at hlook
            push_neg at hcond
            rw [jsLookup_setKey] at hlook
            by_cases hkk : norm a = k
            · rw [if_pos hkk] at hlook
              refine Or.inl ⟨?_, a, c, List.mem_cons_self _ _, hkk.symm⟩
              rw [← Option.some_inj.mp hlook]
              exact hcond.2
            · rw [if_neg hkk] at hlook
              exact Or.inr hlook
    · intro h
      rcases ihs h with hv | hlook
      · exact Or.inl hv
      · cases op with
        | catOv a c => exact Or.inr hlook
        | statusUpd k' v' =>
          replace hlook : jsLookup (updateStatusOp s.2 k' v').2 k = some v := hlook
          unfold updateStatusOp at hlook
          by_cases hcond : k' = [] ∨ jsToLower v' ∉ allowedStatusVals
          · rw [if_pos hcond] at hlook
            exact Or.inr hlook
          · rw [if_neg hcond] at hlook
            push_neg at hcond
            by_cases hcl : jsToLower v' = str "clear"
            · rw [if_pos hcl] at hlook
              rw [jsLookup_eraseKey] at hlook
              by_cases hkk : k' = k
              · rw [if_pos hkk] at hlook
                exact absurd hlook (by simp)
              · rw [if_neg hkk] at hlook
                exact Or.inr hlook
            · rw [if_neg hcl] at hlook
              rw [jsLookup_setKey] at hlook
              by_cases hkk : k' = k
              · rw [if_pos hkk] at hlook
                refine Or.inl ?_
                rw [← Option.some_inj.mp hlook]
                have hmem := hcond.2
                simp only [allowedStatusVals, List.mem_cons, List.not_mem_nil,
                  or_false] at hmem
                rcases hmem with h5 | h5 | h5 | h5 | h5 <;>
                  simp_all [storableStatusVals]
              · rw [if_neg hkk] at hlook
                exact Or.inr hlook

/-- C10: starting from empty stores, after any request sequence every
category-override entry holds one of the five labels under a key that is the
normalization of a submitted asset name, and every status-override entry is a
storable lower-case status — never the value `clear`. -/
theorem C10_store_invariant (ops : List TechOp) (k v : List Char) :
    (jsLookup (applyOps ([], []) ops).1 k = some v →
      v ∈ allowedCats ∧ ∃ a c, TechOp.catOv a c ∈ ops ∧ k = norm a) ∧
    (jsLookup (applyOps ([], []) ops).2 k = some v →
      v ∈ storableStatusVals ∧ v ≠ str "clear") := by
  obtain ⟨hc, hs⟩ := applyOps_lookup ops ([], []) k v
  constructor
  · intro h
    rcases hc h with good | bad
    · exact good
    · exact absurd bad (by simp [jsLookup])
  · intro h
    rcases hs h with good | bad
    · refine ⟨good, ?_⟩
      simp only [storableStatusVals, List.mem_cons, List.not_mem_nil, or_false] at good
      rcases good with rfl | rfl | rfl | rfl <;> decide
    · exact absurd bad (by simp [jsLookup])

/-- Witness for `C10_store_invariant`: after one category override and one
status update, the stored entries satisfy the invariant. -/
theorem C10_store_invariant_witness :
    (str "video" ∈ allowedCats ∧ ∃ a c,
      TechOp.catOv a c ∈ [TechOp.catOv (str "Sony A7IV ") (str "Video"),
        TechOp.statusUpd (str "Alice_x") (str "Ready")] ∧ str "sony a7iv" = norm a) ∧
    (str "ready" ∈ storableStatusVals ∧ str "ready" ≠ str "clear") :=
  ⟨(C10_store_invariant [TechOp.catOv (str "Sony A7IV ") (str "Video"),
      TechOp.statusUpd (str "Alice_x") (str "Ready")] (str "sony a7iv")
      (str "video")).1 (by decide),
   (C10_store_invariant [TechOp.catOv (str "Sony A7IV ") (str "Video"),
      TechOp.statusUpd (str "Alice_x") (str "Ready")] (str "Alice_x")
      (str "ready")).2 (by decide)⟩

/-! ## Calendar correctness of the `toISOString` model -/

theorem findYoeAux_spec (doe : Nat) : ∀ n : Nat,
    dstart (findYoeAux doe n) ≤ doe ∧ findYoeAux doe n ≤ n ∧
    ∀ z, z ≤ n → dstart z ≤ doe → z ≤ findYoeAux doe n := by
  intro n
  induction n with
  | zero =>
    refine ⟨by simp [findYoeAux, dstart], Nat.le_refl 0, ?_⟩
    intro z hz _
    exact hz
  | succ y ih =>
    simp only [findYoeAux]
    by_cases h : dstart (y + 1) ≤ doe
    · rw [if_pos h]
      exact ⟨h, Nat.le_refl _, fun z hz _ => hz⟩
    · rw [if_neg h]
      refine ⟨ih.1, ih.2.1.trans (Nat.le_succ y), fun z hz hdz => ?_⟩
      rcases Nat.eq_or_lt_of_le hz with rfl | hlt
      · exact absurd hdz h
      · exact ih.2.2 z (by omega) hdz

theorem findYoe_spec (doe : Nat) :
    dstart (findYoe doe) ≤ doe ∧ findYoe doe ≤ 399 ∧
    ∀ z, z ≤ 399 → dstart z ≤ doe → z ≤ findYoe doe := findYoeAux_spec doe 399

set_option maxRecDepth 2000 in
theorem month_table : ∀ doy : Nat, doy < 366 →
    1 ≤ monthFromDoy doy ∧ monthFromDoy doy ≤ 12 ∧
    1 ≤ dayFromDoy doy ∧ dayFromDoy doy ≤ 31 ∧
    (if monthFromDoy doy ≤ 2 then monthFromDoy doy + 9 else monthFromDoy doy - 3) =
      (5 * doy + 2) / 153 ∧
    (153 * ((5 * doy + 2) / 153) + 2) / 5 + dayFromDoy doy = doy + 1 ∧
    (monthFromDoy doy ≤ 2 ↔ 306 ≤ doy) := by decide

theorem daysFromCivil_shift (a m d k : Nat) :
    daysFromCivil (a + 400 * k) m d = daysFromCivil a m d + 146097 * k := by
  unfold daysFromCivil
  rcases le_or_lt m 2 with hm | hm
  · rw [if_pos hm, if_neg (by omega : ¬ 2 < m)]
    dsimp only
    rw [show (a + 400 * k + 400 - 1) % 400 = (a + 400 - 1) % 400 from by omega]
    omega
  · rw [if_neg (by omega : ¬ m ≤ 2), if_pos hm]
    dsimp only
    rw [show (a + 400 * k + 400 - 0) % 400 = (a + 400 - 0) % 400 from by omega]
    omega

theorem era0_roundtrip (doe : Nat) (hdoe : doe < 146097) :
    daysFromCivil
      (findYoe doe + (if monthFromDoy (doe - dstart (findYoe doe)) ≤ 2 then 1 else 0))
      (monthFromDoy (doe - dstart (findYoe doe)))
      (dayFromDoy (doe - dstart (findYoe doe))) = (doe : Int) - 719468 := by
  obtain ⟨hy1, hy2, hy3⟩ := findYoe_spec doe
  set yoe := findYoe doe with hyoe
  set doy := doe - dstart yoe with hdoy
  have hy1' : 365 * yoe + yoe / 4 - yoe / 100 ≤ doe := hy1
  have hdoy' : doy = doe - (365 * yoe + yoe / 4 - yoe / 100) := hdoy
  have hdoy365 : doy ≤ 365 := by
    rcases Nat.lt_or_ge yoe 399 with hlt | hge
    · have hnext : ¬ dstart (yoe + 1) ≤ doe := fun hc => absurd (hy3 (yoe + 1) (by omega) hc) (by omega)
      unfold dstart at hnext
      omega
    · have h399 : yoe = 399 := le_antisymm hy2 hge
      omega
  obtain ⟨hm1, hm12, hd1, hd31, hmp, hrec, hm2iff⟩ := month_table doy (by omega)
  set m := monthFromDoy doy with hm
  set d := dayFromDoy doy with hd
  unfold daysFromCivil dstart
  rcases le_or_lt m 2 with hm2 | hm2
  · rw [if_pos hm2, if_neg (by omega : ¬ 2 < m)]
    rw [if_pos hm2] at hmp
    dsimp only
    rw [show (yoe + 1 + 400 - 1) / 400 = 1 from by omega,
      show (yoe + 1 + 400 - 1) % 400 = yoe from by omega, hmp]
    omega
  · rw [if_neg (by omega : ¬ m ≤ 2), if_pos hm2]
    rw [if_neg (by omega : ¬ m ≤ 2)] at hmp
    dsimp only
    rw [show (yoe + 0 + 400 - 0) / 400 = 1 from by omega,
      show (yoe + 0 + 400 - 0) % 400 = yoe from by omega, hmp]
    omega


theorem doy_le_365 (doe : Nat) (hdoe : doe < 146097) :
    doe - dstart (findYoe doe) ≤ 365 := by
  obtain ⟨hy1, hy2, hy3⟩ := findYoe_spec doe
  rcases Nat.lt_or_ge (findYoe doe) 399 with hlt | hge
  · have hnext : ¬ dstart (findYoe doe + 1) ≤ doe :=
      fun hc => absurd (hy3 _ (by omega) hc) (by omega)
    unfold dstart at hnext hy1 ⊢
    omega
  · have h399 : findYoe doe = 399 := le_antisymm hy2 hge
    rw [h399]
    unfold dstart
    omega

theorem civil_roundtrip (z : Int) (h1 : -719528 ≤ z) :
    daysFromCivil (civilFromDays z).1 (civilFromDays z).2.1 (civilFromDays z).2.2 = z := by
  have hz' : ((z + 865565).toNat : Int) = z + 865565 := by omega
  set n := (z + 865565).toNat with hn
  have hnlo : 146037 ≤ n := by omega
  set era := n / 146097 with hera
  set doe := n % 146097 with hdoe
  have hdoe146 : doe < 146097 := by omega
  have hcfd : civilFromDays z =
      (findYoe doe + (if monthFromDoy (doe - dstart (findYoe doe)) ≤ 2 then 1 else 0) +
        era * 400 - 400,
       monthFromDoy (doe - dstart (findYoe doe)), dayFromDoy (doe - dstart (findYoe doe))) := by
    simp only [civilFromDays]
  set y0 := findYoe doe + (if monthFromDoy (doe - dstart (findYoe doe)) ≤ 2 then 1 else 0)
    with hy0
  have h400 : 400 ≤ y0 + era * 400 := by
    rcases Nat.eq_zero_or_pos era with hz0 | hpos
    · have hdoen : doe = n := by omega
      have h399 : findYoe doe = 399 := by
        have hle := (findYoe_spec doe).2.2 399 (Nat.le_refl _) (by unfold dstart; omega)
        have h2 := (findYoe_spec doe).2.1
        omega
      have hdoy306 : 306 ≤ doe - dstart (findYoe doe) := by
        rw [h399]; unfold dstart; omega
      have hdoy366 : doe - dstart (findYoe doe) < 366 := by
        have := doy_le_365 doe hdoe146; omega
      have hm2 : monthFromDoy (doe - dstart (findYoe doe)) ≤ 2 :=
        (month_table _ hdoy366).2.2.2.2.2.2.mpr hdoy306
      have hy0v : y0 = 400 := by rw [hy0, if_pos hm2, h399]
      omega
    · omega
  have he0 := era0_roundtrip doe hdoe146
  have hshift := daysFromCivil_shift (y0 + era * 400 - 400)
    (monthFromDoy (doe - dstart (findYoe doe))) (dayFromDoy (doe - dstart (findYoe doe))) 1
  have hshift2 := daysFromCivil_shift y0
    (monthFromDoy (doe - dstart (findYoe doe))) (dayFromDoy (doe - dstart (findYoe doe))) era
  rw [show y0 + era * 400 - 400 + 400 * 1 = y0 + 400 * era from by omega] at hshift
  rw [hcfd]
  dsimp only
  set A := daysFromCivil (y0 + era * 400 - 400)
    (monthFromDoy (doe - dstart (findYoe doe))) (dayFromDoy (doe - dstart (findYoe doe)))
  set B := daysFromCivil (y0 + 400 * era)
    (monthFromDoy (doe - dstart (findYoe doe))) (dayFromDoy (doe - dstart (findYoe doe)))
  set C := daysFromCivil y0
    (monthFromDoy (doe - dstart (findYoe doe))) (dayFromDoy (doe - dstart (findYoe doe)))
  omega

theorem civilFromDays_bounds (z : Int) (h1 : -719528 ≤ z) (h2 : z ≤ 2932896) :
    (civilFromDays z).1 ≤ 9999 ∧
    1 ≤ (civilFromDays z).2.1 ∧ (civilFromDays z).2.1 ≤ 12 ∧
    1 ≤ (civilFromDays z).2.2 ∧ (civilFromDays z).2.2 ≤ 31 := by
  have hz' : ((z + 865565).toNat : Int) = z + 865565 := by omega
  set n := (z + 865565).toNat with hn
  have hnlo : 146037 ≤ n := by omega
  have hnhi : n ≤ 3798461 := by omega
  set era := n / 146097 with hera
  set doe := n % 146097 with hdoe
  have hdoe146 : doe < 146097 := by omega
  have hcfd : civilFromDays z =
      (findYoe doe + (if monthFromDoy (doe - dstart (findYoe doe)) ≤ 2 then 1 else 0) +
        era * 400 - 400,
       monthFromDoy (doe - dstart (findYoe doe)), dayFromDoy (doe - dstart (findYoe doe))) := by
    simp only [civilFromDays]
  rw [hcfd]
  dsimp only
  have hdoy366 : doe - dstart (findYoe doe) < 366 := by
    have := doy_le_365 doe hdoe146; omega
  obtain ⟨hm1, hm12, hd1, hd31, hmp, hrec, hm2iff⟩ := month_table _ hdoy366
  obtain ⟨hy1, hy2, hy3⟩ := findYoe_spec doe
  refine ⟨?_, hm1, hm12, hd1, hd31⟩
  have herahi : era ≤ 25 := by omega
  rcases Nat.lt_or_ge doe 146037 with hlow | hhigh
  · -- era = 25 is only possible when doe ≤ 146036; then year-of-era piece stays ≤ 399
    by_cases hm2 : monthFromDoy (doe - dstart (findYoe doe)) ≤ 2
    · have h306 := hm2iff.mp hm2
      -- doe ≥ dstart (findYoe doe) + 306, so findYoe doe ≤ 398
      have : dstart (findYoe doe) + 306 ≤ doe := by omega
      have hy398 : findYoe doe ≤ 398 := by
        by_contra hgt
        have h399 : findYoe doe = 399 := by omega
        rw [h399] at this
        unfold dstart at this
        omega
      rw [if_pos hm2]
      omega
    · rw [if_neg hm2]
      omega
  · -- doe ≥ 146037 forces era ≤ 24
    have hera24 : era ≤ 24 := by omega
    split_ifs <;> omega

theorem digitChar_inj : ∀ a, a < 10 → ∀ b, b < 10 → digitChar a = digitChar b → a = b := by
  decide

theorem digits4_inj (a b : Nat) (ha : a ≤ 9999) (hb : b ≤ 9999)
    (h3 : a / 1000 % 10 = b / 1000 % 10) (h2 : a / 100 % 10 = b / 100 % 10)
    (h1 : a / 10 % 10 = b / 10 % 10) (h0 : a % 10 = b % 10) : a = b := by omega

theorem digits2_inj (a b : Nat) (ha : a ≤ 99) (hb : b ≤ 99)
    (h1 : a / 10 % 10 = b / 10 % 10) (h0 : a % 10 = b % 10) : a = b := by omega

theorem tod_digits_inj (a b : Nat) (ha : a < 86400000) (hb : b < 86400000)
    (g1 : a / 3600000 / 10 % 10 = b / 3600000 / 10 % 10)
    (g2 : a / 3600000 % 10 = b / 3600000 % 10)
    (g3 : a / 60000 % 60 / 10 % 10 = b / 60000 % 60 / 10 % 10)
    (g4 : a / 60000 % 60 % 10 = b / 60000 % 60 % 10)
    (g5 : a / 1000 % 60 / 10 % 10 = b / 1000 % 60 / 10 % 10)
    (g6 : a / 1000 % 60 % 10 = b / 1000 % 60 % 10)
    (g7 : a % 1000 / 100 % 10 = b % 1000 / 100 % 10)
    (g8 : a % 1000 / 10 % 10 = b % 1000 / 10 % 10)
    (g9 : a % 1000 % 10 = b % 1000 % 10) : a = b := by omega

theorem ms_recompose_inj (t1 t2 : Int) (hd : t1 / 86400000 = t2 / 86400000)
    (ht : (t1 % 86400000).toNat = (t2 % 86400000).toNat) : t1 = t2 := by omega

theorem isoOfMs_inj (t1 t2 : Int)
    (hlo1 : -62167219200000 ≤ t1) (hhi1 : t1 ≤ 253402300799999)
    (hlo2 : -62167219200000 ≤ t2) (hhi2 : t2 ≤ 253402300799999)
    (he : isoOfMs t1 = isoOfMs t2) : t1 = t2 := by
  have hd1lo : -719528 ≤ t1 / 86400000 := by clear he; omega
  have hd1hi : t1 / 86400000 ≤ 2932896 := by clear he; omega
  have hd2lo : -719528 ≤ t2 / 86400000 := by clear he; omega
  have hd2hi : t2 / 86400000 ≤ 2932896 := by clear he; omega
  have hb1 := civilFromDays_bounds _ hd1lo hd1hi
  have hb2 := civilFromDays_bounds _ hd2lo hd2hi
  have hrt1 := civil_roundtrip (t1 / 86400000) hd1lo
  have hrt2 := civil_roundtrip (t2 / 86400000) hd2lo
  rcases hc1 : civilFromDays (t1 / 86400000) with ⟨y1, mo1, d1⟩
  rcases hc2 : civilFromDays (t2 / 86400000) with ⟨y2, mo2, d2⟩
  rw [hc1] at hb1 hrt1
  rw [hc2] at hb2 hrt2
  dsimp only at hb1 hb2 hrt1 hrt2
  obtain ⟨hy1b, hmo1a, hmo1b, hd1a, hd1b⟩ := hb1
  obtain ⟨hy2b, hmo2a, hmo2b, hd2a, hd2b⟩ := hb2
  have htod1 : (t1 % 86400000).toNat < 86400000 := by clear he; omega
  have htod2 : (t2 % 86400000).toNat < 86400000 := by clear he; omega
  simp only [isoOfMs, hc1, hc2, List.cons.injEq, and_true, true_and] at he
  obtain ⟨e1, e2, e3, e4, e5, e6, e7, e8, e9, e10, e11, e12, e13, e14, e15, e16, e17⟩ := he
  have hyy : y1 = y2 :=
    digits4_inj _ _ hy1b hy2b
      (digitChar_inj _ (Nat.mod_lt _ (by norm_num)) _ (Nat.mod_lt _ (by norm_num)) e1)
      (digitChar_inj _ (Nat.mod_lt _ (by norm_num)) _ (Nat.mod_lt _ (by norm_num)) e2)
      (digitChar_inj _ (Nat.mod_lt _ (by norm_num)) _ (Nat.mod_lt _ (by norm_num)) e3)
      (digitChar_inj _ (Nat.mod_lt _ (by norm_num)) _ (Nat.mod_lt _ (by norm_num)) e4)
  have hmm : mo1 = mo2 :=
    digits2_inj _ _ (by omega) (by omega)
      (digitChar_inj _ (Nat.mod_lt _ (by norm_num)) _ (Nat.mod_lt _ (by norm_num)) e5)
      (digitChar_inj _ (Nat.mod_lt _ (by norm_num)) _ (Nat.mod_lt _ (by norm_num)) e6)
  have hdd : d1 = d2 :=
    digits2_inj _ _ (by omega) (by omega)
      (digitChar_inj _ (Nat.mod_lt _ (by norm_num)) _ (Nat.mod_lt _ (by norm_num)) e7)
      (digitChar_inj _ (Nat.mod_lt _ (by norm_num)) _ (Nat.mod_lt _ (by norm_num)) e8)
  have htt : (t1 % 86400000).toNat = (t2 % 86400000).toNat :=
    tod_digits_inj _ _ htod1 htod2
      (digitChar_inj _ (Nat.mod_lt _ (by norm_num)) _ (Nat.mod_lt _ (by norm_num)) e9)
      (digitChar_inj _ (Nat.mod_lt _ (by norm_num)) _ (Nat.mod_lt _ (by norm_num)) e10)
      (digitChar_inj _ (Nat.mod_lt _ (by norm_num)) _ (Nat.mod_lt _ (by norm_num)) e11)
      (digitChar_inj _ (Nat.mod_lt _ (by norm_num)) _ (Nat.mod_lt _ (by norm_num)) e12)
      (digitChar_inj _ (Nat.mod_lt _ (by norm_num)) _ (Nat.mod_lt _ (by norm_num)) e13)
      (digitChar_inj _ (Nat.mod_lt _ (by norm_num)) _ (Nat.mod_lt _ (by norm_num)) e14)
      (digitChar_inj _ (Nat.mod_lt _ (by norm_num)) _ (Nat.mod_lt _ (by norm_num)) e15)
      (digitChar_inj _ (Nat.mod_lt _ (by norm_num)) _ (Nat.mod_lt _ (by norm_num)) e16)
      (digitChar_inj _ (Nat.mod_lt _ (by norm_num)) _ (Nat.mod_lt _ (by norm_num)) e17)
  rw [hyy, hmm, hdd] at hrt1
  exact ms_recompose_inj t1 t2 (hrt1 ▸ hrt2 ▸ rfl) htt


/-! ## Parser range facts -/

theorem daysInMonthJS_le (y m : Nat) : daysInMonthJS y m ≤ 31 := by
  unfold daysInMonthJS
  split_ifs <;> omega

theorem daysFromCivil_range (y m d : Nat) (hy : y ≤ 9999) (hm1 : 1 ≤ m) (hm2 : m ≤ 12)
    (hd1 : 1 ≤ d) (hd2 : d ≤ 31) :
    -719528 ≤ daysFromCivil y m d ∧ daysFromCivil y m d ≤ 2932896 := by
  unfold daysFromCivil dstart
  rcases le_or_lt m 2 with hm' | hm'
  · rw [if_pos hm', if_neg (by omega : ¬ 2 < m)]
    dsimp only
    constructor <;> omega
  · rw [if_neg (by omega : ¬ m ≤ 2), if_pos hm']
    dsimp only
    constructor <;> omega

theorem parse4_le {s : List Char} {y : Nat} {r : List Char}
    (h : parse4 s = some (y, r)) : y ≤ 9999 := by
  rcases s with _ | ⟨a, _ | ⟨b, _ | ⟨c, _ | ⟨d, rest⟩⟩⟩⟩ <;>
    simp only [parse4] at h <;>
    try exact Option.noConfusion h
  split_ifs at h with hd
  · simp only [Bool.and_eq_true, isDigitChar, decide_eq_true_eq] at hd
    simp only [Option.some.injEq, Prod.mk.injEq] at h
    obtain ⟨hv, -⟩ := h
    unfold digitVal at hv
    omega

theorem parse2_le {s : List Char} {v : Nat} {r : List Char}
    (h : parse2 s = some (v, r)) : v ≤ 99 := by
  rcases s with _ | ⟨a, _ | ⟨b, rest⟩⟩ <;>
    simp only [parse2] at h <;>
    try exact Option.noConfusion h
  split_ifs at h with hd
  · simp only [Bool.and_eq_true, isDigitChar, decide_eq_true_eq] at hd
    simp only [Option.some.injEq, Prod.mk.injEq] at h
    obtain ⟨hv, -⟩ := h
    unfold digitVal at hv
    omega

theorem parseHMS_le {r : List Char} {tod : Nat} (h : parseHMS r = some tod) :
    tod ≤ 86399000 := by
  unfold parseHMS at h
  repeat' split at h
  all_goals
    first
    | (simp only [Option.some.injEq] at h; omega)
    | exact Option.noConfusion h

theorem jsParseDate_range {s : List Char} {t : Int} (h : jsParseDate s = some t) :
    -62167219200000 ≤ t ∧ t ≤ 253402300799999 := by
  unfold jsParseDate at h
  rcases h4 : parse4 s with _ | ⟨y, r1⟩
  · rw [h4] at h
    exact absurd h (by simp)
  · rw [h4] at h
    dsimp only at h
    rcases h5 : expectChar '-' r1 with _ | r2
    · rw [h5] at h
      exact absurd h (by simp)
    · rw [h5] at h
      dsimp only at h
      rcases h6 : parse2 r2 with _ | ⟨mo, r3⟩
      · rw [h6] at h
        exact absurd h (by simp)
      · rw [h6] at h
        dsimp only at h
        rcases h7 : expectChar '-' r3 with _ | r4
        · rw [h7] at h
          exact absurd h (by simp)
        · rw [h7] at h
          dsimp only at h
          rcases h8 : parse2 r4 with _ | ⟨d, r5⟩
          · rw [h8] at h
            exact absurd h (by simp)
          · rw [h8] at h
            dsimp only at h
            rcases h9 : parseHMS r5 with _ | tod
            · rw [h9] at h
              exact absurd h (by simp)
            · rw [h9] at h
              dsimp only at h
              split_ifs at h with hv
              · simp only [Option.some.injEq] at h
                obtain ⟨hm1, hm12, hd1, hdim⟩ := hv
                have hy4 := parse4_le h4
                have htodle := parseHMS_le h9
                have hd31 : d ≤ 31 := le_trans hdim (daysInMonthJS_le y mo)
                obtain ⟨hA, hB⟩ := daysFromCivil_range y mo d hy4 hm1 hm12 hd1 hd31
                rw [← h]
                constructor <;> omega

theorem bucketInstant_range {s : List Char} {t : Int} (h : bucketInstant s = some t) :
    -62167219200000 ≤ t ∧ t ≤ 253402300799999 := by
  unfold bucketInstant at h
  rcases hd : directInstant s with _ | t'
  · rw [hd] at h
    dsimp only at h
    unfold fallbackInstant at h
    rcases hp : parseStartDateParts s with _ | ⟨pd, pm, py⟩
    · rw [hp] at h
      exact absurd h (by simp)
    · rw [hp] at h
      dsimp only at h
      exact jsParseDate_range h
  · rw [hd] at h
    dsimp only at h
    simp only [Option.some.injEq] at h
    subst h
    exact jsParseDate_range hd

theorem bucketInstant_ne_nil {s : List Char} {t : Int} (h : bucketInstant s = some t) :
    s ≠ [] := by
  rintro rfl
  rw [show bucketInstant ([] : List Char) = none from rfl] at h
  exact absurd h (by simp)

/-- C7: for two timestamps the code can parse, the 5-minute buckets are
identical exactly when the floors of their epoch-millisecond instants divided
by 5·60·1000 agree; across a window boundary the buckets differ. -/
theorem C7_time_bucket_window (s1 s2 : List Char) (t1 t2 : Int)
    (h1 : bucketInstant s1 = some t1) (h2 : bucketInstant s2 = some t2) :
    (getTimeBucket s1 5 = getTimeBucket s2 5 ↔ t1 / 300000 = t2 / 300000) := by
  have hms : ((5 : Nat) : Int) * 60 * 1000 = 300000 := by norm_num
  have hb1 : getTimeBucket s1 5 = isoOfMs (t1 / 300000 * 300000) := by
    unfold getTimeBucket
    rw [if_neg (bucketInstant_ne_nil h1), h1]
    dsimp only
    rw [hms]
  have hb2 : getTimeBucket s2 5 = isoOfMs (t2 / 300000 * 300000) := by
    unfold getTimeBucket
    rw [if_neg (bucketInstant_ne_nil h2), h2]
    dsimp only
    rw [hms]
  obtain ⟨hr1a, hr1b⟩ := bucketInstant_range h1
  obtain ⟨hr2a, hr2b⟩ := bucketInstant_range h2
  rw [hb1, hb2]
  constructor
  · intro he
    have := isoOfMs_inj (t1 / 300000 * 300000) (t2 / 300000 * 300000)
      (by omega) (by omega) (by omega) (by omega) he
    omega
  · intro he
    rw [he]

/-- C5: for a non-empty timestamp string that neither the direct parse nor
the rebuilt-template fallback parse can handle, `getTimeBucket` returns the
input unchanged and grouping uses that opaque value as the bucket identity. -/
theorem C5_unparseable_opaque (s u : List Char) (hne : s ≠ [])
    (hd : directInstant s = none) (hf : fallbackInstant s = none) :
    getTimeBucket s 5 = s ∧
    makeGroupKey u (getTimeBucket s 5) = makeGroupKey u s := by
  have hb : bucketInstant s = none := by
    unfold bucketInstant
    rw [hd]
    exact hf
  have hg : getTimeBucket s 5 = s := by
    unfold getTimeBucket
    rw [if_neg hne, hb]
  exact ⟨hg, by rw [hg]⟩

/-- Witness for `C5_unparseable_opaque`: the spec's `"garbage"` scenario. -/
theorem C5_unparseable_opaque_witness :
    getTimeBucket (str "garbage") 5 = str "garbage" ∧
    makeGroupKey (str "Alice") (getTimeBucket (str "garbage") 5) =
      makeGroupKey (str "Alice") (str "garbage") :=
  C5_unparseable_opaque (str "garbage") (str "Alice") (by decide) (by decide) (by decide)

/-- Witness for `C7_time_bucket_window`: 10:02:00 and 10:04:59 share the
10:00–10:05 bucket; 10:05:00 starts the next one. -/
theorem C7_time_bucket_window_witness :
    getTimeBucket (str "2024-06-01 10:02:00") 5 = getTimeBucket (str "2024-06-01 10:04:59") 5 ∧
    getTimeBucket (str "2024-06-01 10:02:00") 5 ≠ getTimeBucket (str "2024-06-01 10:05:00") 5 :=
  ⟨(C7_time_bucket_window _ _ 1717236120000 1717236299000 (by decide) (by decide)).mpr
      (by decide),
   fun h => absurd
     ((C7_time_bucket_window _ _ 1717236120000 1717236300000 (by decide) (by decide)).mp h)
     (by decide)⟩


end KitStore
